import Mathlib

/-!
Shallow embedding of the "nearby places" pipeline from the finder repository
(server route handler: categorization, geometry filter, name validation,
deduplication, quality scoring, ranking and per-category capping).

Modelling conventions:
* JavaScript strings are modelled as `List Char`; `toLowerCase` is modelled
  character-wise by `Char.toLower` (ASCII case folding), `trim` drops
  whitespace characters (`Char.isWhitespace`) from both ends, and the regex
  character classes are restricted to their ASCII meaning (the regexes in the
  source use non-Unicode mode, where a word character is `[A-Za-z0-9_]`).
* JavaScript numbers for coordinates and distances are modelled as `ℚ`.
  The haversine `calculateDistance` computes with transcendental functions
  over IEEE doubles; it is abstracted as a parameter `dist` of the pipeline
  (the source uses it only through comparisons against thresholds, so every
  theorem below is proved for an arbitrary distance function, which covers
  the haversine in particular).  `Math.round` becomes `jsRound` (floor of
  `q + 1/2`, computed gcd-free so that the kernel can evaluate it).
* JavaScript truthiness is modelled explicitly: a string is truthy iff it is
  nonempty, a number is truthy iff it is nonzero (`NaN` does not arise for
  exact rationals), an absent (`undefined`) value is falsy.  `a || b` on
  optional values becomes `jsOrStr` / `jsOrNum`.
* An absent `tags` object on an element behaves exactly like an empty tags
  object (`element.tags || {}` and `element.tags?.k` in the source), so
  `Tags` is a plain structure of optional fields.
-/

namespace Finder

/-- Strings of the embedded program: lists of characters. -/
abbrev Str := List Char

/-- Word characters of the non-Unicode regexes in the source: `[A-Za-z0-9_]`. -/
def isWordChar (c : Char) : Bool :=
  (decide ('a' ≤ c) && decide (c ≤ 'z')) ||
  (decide ('A' ≤ c) && decide (c ≤ 'Z')) ||
  (decide ('0' ≤ c) && decide (c ≤ '9')) || (c == '_')

/-- Digit characters, the regex class `\d`. -/
def isDigitChar (c : Char) : Bool :=
  decide ('0' ≤ c) && decide (c ≤ '9')

/-- Model of `String.prototype.toLowerCase` (character-wise ASCII folding). -/
def lowerStr (s : Str) : Str := s.map Char.toLower

/-- Model of `String.prototype.trim`: drop whitespace from both ends. -/
def trimStr (s : Str) : Str :=
  ((s.dropWhile Char.isWhitespace).reverse.dropWhile Char.isWhitespace).reverse

/-- Model of `name.replace(/[^\w\s]/g, "")`: keep word and whitespace chars. -/
def stripPunct (s : Str) : Str :=
  s.filter fun c => isWordChar c || c.isWhitespace

/-- Model of `s.includes(p)`: `p` occurs as a contiguous substring of `s`. -/
def strIncludes (s p : Str) : Bool := decide (p <:+: s)

/-- The closed category enumeration of the pipeline. -/
inductive Category where
  | healthcare
  | transport
  | education
deriving DecidableEq

/-- The tag keys the route handler reads from an element.  A `none` field is
an absent key; `element.tags` itself being absent behaves identically to all
keys being absent. -/
structure Tags where
  name : Option Str := none
  operator : Option Str := none
  brand : Option Str := none
  amenity : Option Str := none
  highway : Option Str := none
  public_transport : Option Str := none
  healthcare : Option Str := none
  railway : Option Str := none
  emergency : Option Str := none
deriving DecidableEq

/-- A raw Overpass element: kind (`element.type`), numeric id, optional direct
coordinate, optional center coordinate (for ways), and its tags. -/
structure RawRecord where
  kind : Str
  oid : Nat
  lat : Option ℚ := none
  lon : Option ℚ := none
  centerLat : Option ℚ := none
  centerLon : Option ℚ := none
  tags : Tags := {}
deriving DecidableEq

/-- The `details` sub-record of an output place. -/
structure Details where
  operator : Option Str
  emergency : Bool
  amenity : Option Str
  highway : Option Str
  public_transport : Option Str
  healthcare : Option Str
deriving DecidableEq

/-- The pipeline's canonical output unit. -/
structure Place where
  pid : Str
  name : Str
  category : Category
  lat : ℚ
  lon : ℚ
  distance : ℤ
  details : Details
deriving DecidableEq

/-- A place together with its quality score, as produced by the third pass
(`{...place, qualityScore}` in the source). -/
structure ScoredPlace extends Place where
  qualityScore : ℤ
deriving DecidableEq

/-- JavaScript truthiness of an optional string: present and nonempty. -/
def truthyStr : Option Str → Bool
  | none => false
  | some s => !s.isEmpty

/-- JavaScript `a || b` on optional strings (an empty string is falsy). -/
def jsOrStr : Option Str → Option Str → Option Str
  | some s, b => if s.isEmpty then b else some s
  | none, b => b

/-- JavaScript truthiness of an optional number: present and nonzero. -/
def truthyNum : Option ℚ → Bool
  | none => false
  | some x => !(decide (x = 0))

/-- JavaScript `a || b` on optional numbers (the number `0` is falsy). -/
def jsOrNum : Option ℚ → Option ℚ → Option ℚ
  | some x, b => if x = 0 then b else some x
  | none, b => b

/-- Model of `Math.round`: round half toward positive infinity, i.e.
`⌊q + 1/2⌋`, computed as a gcd-free integer floor division. -/
def jsRound (q : ℚ) : ℤ :=
  Int.fdiv (2 * q.num + (q.den : ℤ)) (2 * (q.den : ℤ))

/-- The type of the abstract distance function standing for the floating
point haversine `calculateDistance(lat1, lon1, lat2, lon2)`. -/
abbrev Dist := ℚ → ℚ → ℚ → ℚ → ℚ

/-- `categorizePlace` from the source: first-match-wins chain of conditionals
over the tag set.  `tags.x && list.includes(tags.x)` keeps its truthiness
guard, `tags.healthcare` and `tags.public_transport` are truthiness tests,
`tags.highway === "bus_stop"` and `tags.railway === "station"` are strict
equality against a present value. -/
def categorizePlace (t : Tags) : Option Category :=
  if truthyStr t.amenity &&
      ["hospital".data, "clinic".data, "doctors".data, "pharmacy".data].contains
        (t.amenity.getD []) then
    some Category.healthcare
  else if truthyStr t.healthcare then
    some Category.healthcare
  else if truthyStr t.amenity && ["bus_station".data].contains (t.amenity.getD []) then
    some Category.transport
  else if (t.highway == some ("bus_stop".data)) || truthyStr t.public_transport then
    some Category.transport
  else if t.railway == some ("station".data) then
    some Category.transport
  else if truthyStr t.amenity &&
      ["school".data, "university".data, "college".data, "kindergarten".data].contains
        (t.amenity.getD []) then
    some Category.education
  else
    none

/-- The blacklist of `cleanPlaceName` (`invalidPatterns` in the source). -/
def invalidPatterns : List Str :=
  ["test".data, "example".data, "xxx".data, "temp".data, "123".data,
   "unnamed".data, "no name".data, "construction".data,
   "under construction".data, "closed".data, "demolished".data]

/-- The generic-name list of `cleanPlaceName` (`genericPatterns`). -/
def genericPatterns : List Str :=
  ["building".data, "structure".data, "facility".data, "site".data]

/-- `cleanPlaceName` from the source: `true` iff the name is kept.  The
substring and exact-match tests run on `name.toLowerCase().trim()`, the
length test and the `/^[\d\W]+$/` test run on the raw name. -/
def cleanPlaceName (name : Str) : Bool :=
  if name.isEmpty then false
  else if name.length < 2 || 100 < name.length then false
  else if invalidPatterns.any (fun p => strIncludes (trimStr (lowerStr name)) p) then false
  else if genericPatterns.any (fun p => trimStr (lowerStr name) == p) then false
  else if !name.isEmpty && name.all (fun c => isDigitChar c || !isWordChar c) then false
  else true

/-- The display-name resolution
`element.tags?.name || element.tags?.operator || element.tags?.brand ||
element.tags?.amenity || "Unknown"` (JavaScript `||`, so empty strings fall
through). -/
def resolveName (t : Tags) : Str :=
  match jsOrStr t.name (jsOrStr t.operator (jsOrStr t.brand t.amenity)) with
  | some s => if s.isEmpty then ("Unknown".data) else s
  | none => "Unknown".data

/-- `isDuplicate(place1, place2, threshold = 50)` from the source. -/
def isDuplicate (dist : Dist) (thr : ℚ) (p1 p2 : Place) : Bool :=
  if lowerStr p1.name == lowerStr p2.name then
    decide (dist p1.lat p1.lon p2.lat p2.lon < thr)
  else if strIncludes (stripPunct (lowerStr p1.name)) (stripPunct (lowerStr p2.name)) ||
      strIncludes (stripPunct (lowerStr p2.name)) (stripPunct (lowerStr p1.name)) then
    decide (dist p1.lat p1.lon p2.lat p2.lon < thr)
  else
    false

/-- The amenity values rewarded by the scorer (`specificAmenities`). -/
def specificAmenities : List Str :=
  ["hospital".data, "clinic".data, "pharmacy".data, "school".data, "university".data]

/-- The generic labels penalized by the scorer (`genericNames`). -/
def genericNames : List Str :=
  ["pharmacy".data, "hospital".data, "school".data, "bus stop".data]

/-- `scorePlaceQuality` from the source: additive integer score. -/
def scorePlaceQuality (p : Place) : ℤ :=
  let s1 : ℤ := if (!p.name.isEmpty) && (p.name != "Unknown".data) then 20 else 0
  let s2 : ℤ := if truthyStr p.details.operator then s1 + 15 else s1
  let s3 : ℤ := if p.details.emergency then s2 + 25 else s2
  let s4 : ℤ :=
    if truthyStr p.details.amenity && specificAmenities.contains (p.details.amenity.getD [])
    then s3 + 10 else s3
  let s5 : ℤ := if p.category == Category.healthcare then s4 + 5 else s4
  if genericNames.contains (lowerStr p.name) then s5 - 5 else s5

/-- The geometry-filter comparison of the first pass: the record is kept iff
`distance > searchRadius + 100` is false.  The sum is taken in `ℤ` (the
request radius is an integer) and compared against the rational distance. -/
def keepWithinRadius (radius : ℤ) (d : ℚ) : Bool :=
  !(decide (((radius + 100 : ℤ) : ℚ) < d))

/-- One iteration of the first pass of `handlePlacesSearch`: classify, resolve
the coordinate (`element.lat || element.center?.lat`, with the `!lat || !lon`
guard), resolve and validate the name, apply the radius filter and build the
`Place`. -/
def processElement (dist : Dist) (cLat cLon : ℚ) (radius : ℤ) (e : RawRecord) :
    Option Place :=
  match categorizePlace e.tags with
  | none => none
  | some cat =>
    if !truthyNum (jsOrNum e.lat e.centerLat) || !truthyNum (jsOrNum e.lon e.centerLon) then
      none
    else if !cleanPlaceName (resolveName e.tags) then
      none
    else if !keepWithinRadius radius
        (dist cLat cLon ((jsOrNum e.lat e.centerLat).getD 0)
          ((jsOrNum e.lon e.centerLon).getD 0)) then
      none
    else
      some
        { pid := e.kind ++ ('_' :: (Nat.repr e.oid).data)
          name := resolveName e.tags
          category := cat
          lat := (jsOrNum e.lat e.centerLat).getD 0
          lon := (jsOrNum e.lon e.centerLon).getD 0
          distance := jsRound
            (dist cLat cLon ((jsOrNum e.lat e.centerLat).getD 0)
              ((jsOrNum e.lon e.centerLon).getD 0))
          details :=
            { operator := e.tags.operator
              emergency := e.tags.emergency == some ("yes".data)
              amenity := e.tags.amenity
              highway := e.tags.highway
              public_transport := e.tags.public_transport
              healthcare := e.tags.healthcare } }

/-- The second pass of `handlePlacesSearch` with its accumulating `accepted`
list: a candidate is appended unless `isDuplicate(place, existing)` holds for
some already accepted entry. -/
def dedupAux (dist : Dist) (acc : List Place) : List Place → List Place
  | [] => acc
  | x :: xs =>
    if acc.any (fun ex => isDuplicate dist 50 x ex) then dedupAux dist acc xs
    else dedupAux dist (acc ++ [x]) xs

/-- The deduplicator: fold of `dedupAux` starting from the empty accepted
list. -/
def dedup (dist : Dist) (l : List Place) : List Place := dedupAux dist [] l

/-- The third pass: attach the quality score (`{...place, qualityScore}`). -/
def mkScored (p : Place) : ScoredPlace := { toPlace := p, qualityScore := scorePlaceQuality p }

/-- The sort comparator: quality score descending, then stored (rounded)
distance ascending.  `sortLe a b` means the comparator puts `a` no later
than `b`. -/
def sortLe (a b : ScoredPlace) : Bool :=
  if a.qualityScore = b.qualityScore then decide (a.distance ≤ b.distance)
  else decide (b.qualityScore < a.qualityScore)

/-- The per-category output caps (`categoryLimits` in the source). -/
def capLimit : Category → Nat
  | Category.healthcare => 12
  | Category.transport => 10
  | Category.education => 8

/-- The fourth pass: one forward walk over the sorted sequence keeping a
running per-category count and skipping places whose category is full. -/
def capAux (counts : Category → Nat) : List ScoredPlace → List ScoredPlace
  | [] => []
  | x :: xs =>
    if counts x.category < capLimit x.category then
      x :: capAux (fun c => if c = x.category then counts c + 1 else counts c) xs
    else
      capAux counts xs

/-- First pass over all elements. -/
def rawStage (dist : Dist) (cLat cLon : ℚ) (radius : ℤ) (recs : List RawRecord) :
    List Place :=
  recs.filterMap (processElement dist cLat cLon radius)

/-- First and second pass. -/
def uniqueStage (dist : Dist) (cLat cLon : ℚ) (radius : ℤ) (recs : List RawRecord) :
    List Place :=
  dedup dist (rawStage dist cLat cLon radius recs)

/-- First through third pass. -/
def scoredStage (dist : Dist) (cLat cLon : ℚ) (radius : ℤ) (recs : List RawRecord) :
    List ScoredPlace :=
  (uniqueStage dist cLat cLon radius recs).map mkScored

/-- First through third pass followed by the sort.  The in-place
`Array.prototype.sort` with a consistent comparator is modelled by the
stable `List.mergeSort`. -/
def sortedStage (dist : Dist) (cLat cLon : ℚ) (radius : ℤ) (recs : List RawRecord) :
    List ScoredPlace :=
  (scoredStage dist cLat cLon radius recs).mergeSort sortLe

/-- The whole pipeline of `handlePlacesSearch`, producing the `places` list
of the response.  The objects pushed in the fourth pass are the scored
objects of the third pass, so the output element type is `ScoredPlace`. -/
def handlePlaces (dist : Dist) (cLat cLon : ℚ) (radius : ℤ) (recs : List RawRecord) :
    List ScoredPlace :=
  capAux (fun _ => 0) (sortedStage dist cLat cLon radius recs)

/-- Number of output places of a given category. -/
def countCategory (l : List ScoredPlace) (c : Category) : Nat :=
  (l.filter fun sp => sp.category == c).length

/-- Evaluation of an ordered list of (predicate, category) rules:
the category of the first rule whose predicate holds. -/
def firstMatch : List ((Tags → Bool) × Category) → Tags → Option Category
  | [], _ => none
  | (p, c) :: rs, t => if p t then some c else firstMatch rs t

/-- Modelled from the spec wording of the classifier rules, with "tag
present" read as key presence (any value, including the empty string).
Used to state the original claim about the classifier. -/
def claimRules : List ((Tags → Bool) × Category) :=
  [ (fun t => t.amenity.any fun a =>
      ["hospital".data, "clinic".data, "doctors".data, "pharmacy".data].contains a,
     Category.healthcare),
    (fun t => t.healthcare.isSome, Category.healthcare),
    (fun t => t.amenity.any fun a => ["bus_station".data].contains a, Category.transport),
    (fun t => (t.highway == some ("bus_stop".data)) || t.public_transport.isSome,
     Category.transport),
    (fun t => t.railway == some ("station".data), Category.transport),
    (fun t => t.amenity.any fun a =>
      ["school".data, "university".data, "college".data, "kindergarten".data].contains a,
     Category.education) ]

/-- The classifier rules as the code implements them: presence of the
`healthcare` and `public_transport` tags requires a non-empty value
(JavaScript truthiness).  Used to state the amended claim. -/
def codeRules : List ((Tags → Bool) × Category) :=
  [ (fun t => truthyStr t.amenity &&
      ["hospital".data, "clinic".data, "doctors".data, "pharmacy".data].contains
        (t.amenity.getD []),
     Category.healthcare),
    (fun t => truthyStr t.healthcare, Category.healthcare),
    (fun t => truthyStr t.amenity && ["bus_station".data].contains (t.amenity.getD []),
     Category.transport),
    (fun t => (t.highway == some ("bus_stop".data)) || truthyStr t.public_transport,
     Category.transport),
    (fun t => t.railway == some ("station".data), Category.transport),
    (fun t => truthyStr t.amenity &&
      ["school".data, "university".data, "college".data, "kindergarten".data].contains
        (t.amenity.getD []),
     Category.education) ]

/-- The near-duplicate pair predicate as the spec states it (symmetric in
the two places): identical case-folded names within the threshold, or one
case-folded punctuation-stripped name a substring of the other within the
threshold. -/
def nearDupPair (dist : Dist) (p q : Place) : Prop :=
  (lowerStr p.name = lowerStr q.name ∧ dist p.lat p.lon q.lat q.lon < 50) ∨
  ((stripPunct (lowerStr p.name) <:+: stripPunct (lowerStr q.name) ∨
    stripPunct (lowerStr q.name) <:+: stripPunct (lowerStr p.name)) ∧
   dist p.lat p.lon q.lat q.lon < 50)

/-- Modelled from the spec wording of name resolution: the first present
tag among name, operator, brand, amenity, else the literal fallback.  Used
to state the original claim. -/
def specResolveClaim (t : Tags) : Str :=
  (([t.name, t.operator, t.brand, t.amenity].filterMap id).headD ("Unknown".data))

/-- Name resolution as the code implements it, stated declaratively: the
first present and non-empty tag value among name, operator, brand, amenity,
else the literal fallback.  Used to state the amended claim. -/
def specResolveAmended (t : Tags) : Str :=
  ((([t.name, t.operator, t.brand, t.amenity].filterMap id).filter
      fun s => !s.isEmpty).headD ("Unknown".data))

/-- The name-rejection predicate as the spec states it: empty, bad length,
case-insensitive blacklist substring, case-insensitive exact generic match
(no whitespace trimming), or only digits and non-word symbols.  Used to
state the original claim. -/
def specRejectClaim (n : Str) : Prop :=
  n = [] ∨ n.length < 2 ∨ 100 < n.length ∨
  (∃ p ∈ invalidPatterns, p <:+: lowerStr n) ∨
  lowerStr n ∈ genericPatterns ∨
  (n ≠ [] ∧ ∀ c ∈ n, isDigitChar c = true ∨ isWordChar c = false)

/-- The name-rejection predicate as the code implements it, stated
declaratively: as `specRejectClaim`, except that the exact generic-name
comparison is made against the whitespace-trimmed case-folded name.  Used to
state the amended claim. -/
def specRejectAmended (n : Str) : Prop :=
  n = [] ∨ n.length < 2 ∨ 100 < n.length ∨
  (∃ p ∈ invalidPatterns, p <:+: lowerStr n) ∨
  trimStr (lowerStr n) ∈ genericPatterns ∨
  (n ≠ [] ∧ ∀ c ∈ n, isDigitChar c = true ∨ isWordChar c = false)

/-- The claim-side rejection predicate is decidable (used to evaluate the
counterexample). -/
instance (n : Str) : Decidable (specRejectClaim n) := by
  unfold specRejectClaim
  infer_instance

/-- A pattern has no whitespace at either end (such patterns occur in the
trimmed name iff they occur in the untrimmed one). -/
def noWsBoundary (p : Str) : Bool :=
  (p.head?.all fun c => !c.isWhitespace) && (p.getLast?.all fun c => !c.isWhitespace)

/-- A concrete distance function for witnesses: constantly zero (trivially
symmetric). -/
def dist0 : Dist := fun _ _ _ _ => 0

/-- A concrete well-formed record used by witnesses: a named clinic with an
emergency tag, direct coordinates, within every radius under `dist0`. -/
def e1 : RawRecord :=
  { kind := "node".data, oid := 1, lat := some 1, lon := some 1,
    tags := { name := some ("Alpha Clinic".data), amenity := some ("clinic".data),
              emergency := some ("yes".data) } }

/-- The place the pipeline builds from `e1`. -/
def pl1 : Place :=
  { pid := "node_1".data, name := "Alpha Clinic".data, category := Category.healthcare,
    lat := 1, lon := 1, distance := 0,
    details := { operator := none, emergency := true, amenity := some ("clinic".data),
                 highway := none, public_transport := none, healthcare := none } }

/-- A record with an empty (hence unclassifiable) tag set. -/
def eU : RawRecord := { kind := "node".data, oid := 9, lat := some 1, lon := some 1 }

/-- A record whose name tag is present but empty and whose operator tag is
set: the code falls through to the operator. -/
def e7 : RawRecord :=
  { kind := "way".data, oid := 4, lat := some 2, lon := some 3,
    tags := { name := some [], operator := some ("Real Pharmacy".data),
              amenity := some ("pharmacy".data) } }

/-- A record on the equator: direct latitude `0`, valid longitude. -/
def eEquator : RawRecord :=
  { kind := "node".data, oid := 3, lat := some 0, lon := some 13,
    tags := { name := some ("Alpha Hospital".data), amenity := some ("hospital".data) } }

/-- The same record displaced off the equator. -/
def eNonzero : RawRecord :=
  { kind := "node".data, oid := 3, lat := some 51, lon := some 13,
    tags := { name := some ("Alpha Hospital".data), amenity := some ("hospital".data) } }

/-- Two places with identical names at (under `dist0`) zero distance. -/
def p6a : Place :=
  { pid := "node_5".data, name := "Beta Pharmacy".data, category := Category.healthcare,
    lat := 1, lon := 1, distance := 0,
    details := { operator := none, emergency := false, amenity := some ("pharmacy".data),
                 highway := none, public_transport := none, healthcare := none } }

/-- Second member of the duplicate pair (different id, later in input
order, and a higher quality score via its operator tag). -/
def p6b : Place :=
  { pid := "node_6".data, name := "Beta Pharmacy".data, category := Category.healthcare,
    lat := 1, lon := 1, distance := 0,
    details := { operator := some ("Beta Group".data), emergency := false,
                 amenity := some ("pharmacy".data),
                 highway := none, public_transport := none, healthcare := none } }

/-! ### Sanity: the rounding model agrees with the mathematical floor -/

/-- `jsRound` is round-half-up: the floor of `q + 1/2`. -/
theorem jsRound_eq_floor (q : ℚ) : jsRound q = ⌊q + 1/2⌋ := by
  have hden : (0:ℤ) ≤ 2 * (q.den : ℤ) := by positivity
  rw [jsRound, Int.fdiv_eq_ediv _ hden]
  have hd : ((q.den : ℚ)) ≠ 0 := by
    exact_mod_cast Rat.den_ne_zero q
  have hd2 : q * (q.den : ℚ) = (q.num : ℚ) :=
    (eq_div_iff hd).mp (Rat.num_div_den q).symm
  have hq : q + 1/2 = ((2 * q.num + (q.den : ℤ) : ℤ) : ℚ) / ((2 * q.den : ℕ) : ℚ) := by
    rw [eq_div_iff (by positivity)]
    push_cast
    rw [show (q + 1/2) * (2 * (q.den : ℚ)) = 2 * (q * (q.den : ℚ)) + (q.den : ℚ) from by ring,
      hd2]
  rw [hq, Rat.floor_intCast_div_natCast]
  push_cast
  rfl

/-! ### Structural lemmas about the deduplicator -/

/-- The accumulating pass returns the accepted prefix followed by a
subsequence of the remaining input. -/
theorem dedupAux_shape (dist : Dist) :
    ∀ (l acc : List Place), ∃ t, dedupAux dist acc l = acc ++ t ∧ t.Sublist l := by
  intro l
  induction l with
  | nil => exact fun acc => ⟨[], by simp [dedupAux]⟩
  | cons x xs ih =>
    intro acc
    by_cases h : acc.any fun ex => isDuplicate dist 50 x ex
    · obtain ⟨t, ht, hs⟩ := ih acc
      exact ⟨t, by simp [dedupAux, h, ht], hs.cons x⟩
    · obtain ⟨t, ht, hs⟩ := ih (acc ++ [x])
      refine ⟨x :: t, ?_, hs.cons₂ x⟩
      simp [dedupAux, h, ht]

/-- The deduplicator keeps a subsequence of its input, in input order. -/
theorem dedup_sublist (dist : Dist) (l : List Place) : (dedup dist l).Sublist l := by
  obtain ⟨t, ht, hs⟩ := dedupAux_shape dist l []
  simpa [dedup, ht] using hs

/-- The first input element always survives deduplication. -/
theorem dedup_cons_head (dist : Dist) (x : Place) (xs : List Place) :
    ∃ t, dedup dist (x :: xs) = x :: t := by
  obtain ⟨t, ht, _⟩ := dedupAux_shape dist xs [x]
  exact ⟨t, by simpa [dedup, dedupAux] using ht⟩

/-- The accumulating pass preserves the invariant that no accepted entry is
a duplicate (in the code's direction: later argument first) of an earlier
accepted entry. -/
theorem dedupAux_pairwise (dist : Dist) :
    ∀ (l acc : List Place),
      acc.Pairwise (fun a b => isDuplicate dist 50 b a = false) →
      (dedupAux dist acc l).Pairwise (fun a b => isDuplicate dist 50 b a = false) := by
  intro l
  induction l with
  | nil => intro acc h; simpa [dedupAux] using h
  | cons x xs ih =>
    intro acc h
    by_cases hx : acc.any fun ex => isDuplicate dist 50 x ex
    · simpa [dedupAux, hx] using ih acc h
    · simp only [dedupAux, hx, Bool.false_eq_true, if_false]
      refine ih (acc ++ [x]) ?_
      rw [List.pairwise_append]
      refine ⟨h, by simp, ?_⟩
      intro a ha b hb
      simp only [List.mem_singleton] at hb
      subst hb
      have := List.any_eq_false.mp (Bool.not_eq_true _ ▸ hx) a ha
      simpa using this

/-- No place surviving deduplication is a duplicate of an earlier
surviving place. -/
theorem dedup_pairwise (dist : Dist) (l : List Place) :
    (dedup dist l).Pairwise (fun a b => isDuplicate dist 50 b a = false) :=
  dedupAux_pairwise dist l [] (by simp)

/-- Every input element dropped by the accumulating pass is a duplicate of
some surviving entry. -/
theorem dedupAux_dropped (dist : Dist) :
    ∀ (l acc : List Place) (q : Place), q ∈ l → q ∉ dedupAux dist acc l →
      ∃ p ∈ dedupAux dist acc l, isDuplicate dist 50 q p = true := by
  intro l
  induction l with
  | nil => intro acc q hq; simp at hq
  | cons x xs ih =>
    intro acc q hq hnot
    have hacc_mem : ∀ a ∈ acc, a ∈ dedupAux dist acc (x :: xs) := by
      intro a ha
      obtain ⟨t, ht, _⟩ := dedupAux_shape dist (x :: xs) acc
      rw [ht]
      exact List.mem_append_left t ha
    by_cases hx : acc.any fun ex => isDuplicate dist 50 x ex
    · rcases List.mem_cons.mp hq with rfl | hq'
      · obtain ⟨p, hp, hdup⟩ := List.any_eq_true.mp hx
        exact ⟨p, hacc_mem p hp, by simpa using hdup⟩
      · have : dedupAux dist acc (x :: xs) = dedupAux dist acc xs := by
          simp [dedupAux, hx]
        rw [this] at hnot ⊢
        exact ih acc q hq' hnot
    · have hrw : dedupAux dist acc (x :: xs) = dedupAux dist (acc ++ [x]) xs := by
        simp [dedupAux, hx]
      rw [hrw] at hnot ⊢
      rcases List.mem_cons.mp hq with rfl | hq'
      · exfalso
        apply hnot
        obtain ⟨t, ht, _⟩ := dedupAux_shape dist xs (acc ++ [q])
        rw [ht]
        exact List.mem_append_left t (by simp)
      · exact ih (acc ++ [x]) q hq' hnot

/-! ### Structural lemmas about the capping pass -/

/-- The capping pass keeps a subsequence of the sorted sequence, in order:
it is a single forward pass with no re-sorting. -/
theorem capAux_sublist : ∀ (l : List ScoredPlace) (counts : Category → Nat),
    (capAux counts l).Sublist l := by
  intro l
  induction l with
  | nil => intro counts; simp [capAux]
  | cons x xs ih =>
    intro counts
    by_cases h : counts x.category < capLimit x.category
    · simpa [capAux, h] using (ih _).cons₂ x
    · simpa [capAux, h] using (ih counts).cons x

/-- Counting a cons cell. -/
theorem countCategory_cons (x : ScoredPlace) (t : List ScoredPlace) (c : Category) :
    countCategory (x :: t) c = countCategory t c + (if x.category = c then 1 else 0) := by
  by_cases h : x.category = c <;> simp [countCategory, List.filter_cons, h]

/-- Per-category counting invariant of the capping pass. -/
theorem capAux_count (c : Category) :
    ∀ (l : List ScoredPlace) (counts : Category → Nat), counts c ≤ capLimit c →
      countCategory (capAux counts l) c + counts c ≤ capLimit c := by
  intro l
  induction l with
  | nil => intro counts h; simpa [capAux, countCategory] using h
  | cons x xs ih =>
    intro counts hcount
    by_cases h : counts x.category < capLimit x.category
    · rw [show capAux counts (x :: xs) =
          x :: capAux (fun k => if k = x.category then counts k + 1 else counts k) xs from
          by simp [capAux, h]]
      rw [countCategory_cons]
      by_cases hc : x.category = c
      · have hle : (if c = x.category then counts c + 1 else counts c) ≤ capLimit c := by
          rw [if_pos hc.symm]
          rw [hc] at h
          omega
        have hx : countCategory
            (capAux (fun k => if k = x.category then counts k + 1 else counts k) xs) c +
            (if c = x.category then counts c + 1 else counts c) ≤ capLimit c := ih _ hle
        rw [if_pos hc.symm] at hx
        rw [if_pos hc]
        omega
      · have hle : (if c = x.category then counts c + 1 else counts c) ≤ capLimit c := by
          rw [if_neg (Ne.symm hc)]
          exact hcount
        have hx : countCategory
            (capAux (fun k => if k = x.category then counts k + 1 else counts k) xs) c +
            (if c = x.category then counts c + 1 else counts c) ≤ capLimit c := ih _ hle
        rw [if_neg (Ne.symm hc)] at hx
        rw [if_neg hc]
        omega
    · rw [show capAux counts (x :: xs) = capAux counts xs from by simp [capAux, h]]
      exact ih counts hcount

/-! ### Inversion of the first pass -/

/-- What holds of any place the first pass produces. -/
theorem processElement_some {dist : Dist} {cLat cLon : ℚ} {radius : ℤ}
    {e : RawRecord} {p : Place}
    (h : processElement dist cLat cLon radius e = some p) :
    categorizePlace e.tags = some p.category ∧
    p.name = resolveName e.tags ∧
    cleanPlaceName p.name = true ∧
    keepWithinRadius radius (dist cLat cLon p.lat p.lon) = true ∧
    p.details.emergency = (e.tags.emergency == some ("yes".data)) ∧
    p.distance = jsRound (dist cLat cLon p.lat p.lon) := by
  unfold processElement at h
  cases hcat : categorizePlace e.tags with
  | none => simp [hcat] at h
  | some cat =>
    simp only [hcat] at h
    split at h
    · exact absurd h (by simp)
    · split at h
      · exact absurd h (by simp)
      · split at h
        · exact absurd h (by simp)
        · rename_i hcoord hname hkeep
          injection h with h
          subst h
          refine ⟨rfl, rfl, ?_, ?_, rfl, rfl⟩
          · simpa using hname
          · simpa using hkeep

/-- Every place of the final output originates from an input record via the
first pass, and carries that place's quality score. -/
theorem mem_handlePlaces {dist : Dist} {cLat cLon : ℚ} {radius : ℤ}
    {recs : List RawRecord} {sp : ScoredPlace}
    (h : sp ∈ handlePlaces dist cLat cLon radius recs) :
    ∃ e ∈ recs, processElement dist cLat cLon radius e = some sp.toPlace ∧
      sp.qualityScore = scorePlaceQuality sp.toPlace := by
  have h1 : sp ∈ sortedStage dist cLat cLon radius recs :=
    (capAux_sublist _ _).subset h
  unfold sortedStage at h1
  rw [List.mem_mergeSort] at h1
  unfold scoredStage at h1
  obtain ⟨p, hp, rfl⟩ := List.mem_map.mp h1
  unfold uniqueStage at hp
  have h3 : p ∈ rawStage dist cLat cLon radius recs := (dedup_sublist dist _).subset hp
  unfold rawStage at h3
  obtain ⟨e, he, hpe⟩ := List.mem_filterMap.mp h3
  exact ⟨e, he, hpe, rfl⟩

/-! ### Trimming does not move blacklist patterns in or out of a name -/

/-- A pattern whose first character is not whitespace occurs in
`s.dropWhile isWhitespace` iff it occurs in `s`. -/
theorem infix_dropWhile_iff {p s : Str}
    (h : ∀ c, p.head? = some c → c.isWhitespace = false) :
    p <:+: s.dropWhile Char.isWhitespace ↔ p <:+: s := by
  constructor
  · intro hp
    exact hp.trans (List.dropWhile_suffix Char.isWhitespace).isInfix
  · intro hp
    induction s with
    | nil => simpa using hp
    | cons c t ih =>
      by_cases hc : Char.isWhitespace c
      · rw [List.dropWhile_cons_of_pos hc]
        rcases List.infix_cons_iff.mp hp with hpre | hinf
        · rcases List.prefix_cons_iff.mp hpre with rfl | ⟨t2, rfl, _⟩
          · exact List.nil_infix
          · exact absurd (h c rfl) (by simp [hc])
        · exact ih hinf
      · rwa [List.dropWhile_cons_of_neg (by simpa using hc)]

/-- A pattern with non-whitespace boundary characters occurs in the trimmed
string iff it occurs in the original string. -/
theorem infix_trimStr_iff {p s : Str} (hb : noWsBoundary p = true) :
    p <:+: trimStr s ↔ p <:+: s := by
  have hball := (Bool.and_eq_true _ _).mp (by simpa [noWsBoundary] using hb)
  have hh : ∀ c, p.head? = some c → c.isWhitespace = false := by
    intro c hc
    have h1 := hball.1
    rw [hc] at h1
    simpa using h1
  have hl : ∀ c, p.reverse.head? = some c → c.isWhitespace = false := by
    intro c hc
    rw [List.head?_reverse] at hc
    have h2 := hball.2
    rw [hc] at h2
    simpa using h2
  unfold trimStr
  conv_lhs => rw [← List.reverse_reverse p]
  rw [ List.reverse_infix, infix_dropWhile_iff hl, List.reverse_infix,
    infix_dropWhile_iff hh]

/-- All blacklist patterns have non-whitespace boundary characters. -/
theorem invalidPatterns_noWsBoundary : ∀ p ∈ invalidPatterns, noWsBoundary p = true := by
  decide

/-- The blacklist scan over the trimmed case-folded name agrees with
substring occurrence in the untrimmed case-folded name. -/
theorem invalid_any_trim (n : Str) :
    (invalidPatterns.any fun p => strIncludes (trimStr (lowerStr n)) p) = true ↔
      ∃ p ∈ invalidPatterns, p <:+: lowerStr n := by
  rw [List.any_eq_true]
  constructor
  · rintro ⟨p, hp, hinc⟩
    refine ⟨p, hp, ?_⟩
    exact (infix_trimStr_iff (invalidPatterns_noWsBoundary p hp)).mp
      (by simpa [strIncludes] using hinc)
  · rintro ⟨p, hp, hinf⟩
    refine ⟨p, hp, ?_⟩
    simpa [strIncludes] using
      (infix_trimStr_iff (invalidPatterns_noWsBoundary p hp)).mpr hinf

/-! ### Characterization of the name validator -/

/-- The generic-name scan is membership of the trimmed case-folded name. -/
theorem generic_any_iff (m : Str) :
    (genericPatterns.any fun p => m == p) = true ↔ m ∈ genericPatterns := by
  rw [List.any_eq_true]
  constructor
  · rintro ⟨p, hp, he⟩
    rw [beq_iff_eq] at he
    exact he ▸ hp
  · intro h
    exact ⟨m, h, beq_self_eq_true m⟩

/-- `cleanPlaceName` decides exactly the declarative acceptance predicate of
the amended claim. -/
theorem cleanPlaceName_iff (n : Str) : cleanPlaceName n = true ↔ ¬ specRejectAmended n := by
  unfold cleanPlaceName specRejectAmended
  by_cases h0 : n.isEmpty
  · rw [if_pos h0]
    exact iff_of_false (by simp) (not_not.mpr (Or.inl (List.isEmpty_iff.mp h0)))
  · rw [if_neg h0]
    have hne : n ≠ [] := fun h => by rw [h] at h0; exact h0 rfl
    by_cases h1 : n.length < 2 ∨ 100 < n.length
    · rw [if_pos (by simpa using h1)]
      refine iff_of_false (by simp) (not_not.mpr ?_)
      rcases h1 with h | h
      · exact Or.inr (Or.inl h)
      · exact Or.inr (Or.inr (Or.inl h))
    · rw [if_neg (by simpa using h1)]
      by_cases h2 : ∃ p ∈ invalidPatterns, p <:+: lowerStr n
      · rw [if_pos ((invalid_any_trim n).mpr h2)]
        exact iff_of_false (by simp)
          (not_not.mpr (Or.inr (Or.inr (Or.inr (Or.inl h2)))))
      · rw [if_neg (fun hc => h2 ((invalid_any_trim n).mp hc))]
        by_cases h3 : trimStr (lowerStr n) ∈ genericPatterns
        · rw [if_pos ((generic_any_iff _).mpr h3)]
          exact iff_of_false (by simp)
            (not_not.mpr (Or.inr (Or.inr (Or.inr (Or.inr (Or.inl h3))))))
        · rw [if_neg (fun hc => h3 ((generic_any_iff _).mp hc))]
          by_cases h4 : ∀ c ∈ n, isDigitChar c = true ∨ isWordChar c = false
          · have hcond : ((!n.isEmpty) &&
                n.all fun c => isDigitChar c || !isWordChar c) = true := by
              rw [Bool.and_eq_true]
              refine ⟨by simpa using h0, ?_⟩
              rw [List.all_eq_true]
              intro c hc
              rcases h4 c hc with h | h <;> simp [h]
            rw [if_pos hcond]
            exact iff_of_false (by simp)
              (not_not.mpr (Or.inr (Or.inr (Or.inr (Or.inr (Or.inr ⟨hne, h4⟩))))))
          · have hcond : ¬ (((!n.isEmpty) &&
                n.all fun c => isDigitChar c || !isWordChar c) = true) := by
              rw [Bool.and_eq_true]
              rintro ⟨-, hall⟩
              rw [List.all_eq_true] at hall
              refine h4 fun c hc => ?_
              have hcb := hall c hc
              revert hcb
              cases hdg : isDigitChar c <;> cases hw : isWordChar c <;> simp
            rw [if_neg hcond]
            refine iff_of_true rfl ?_
            intro hrej
            rcases hrej with h | h | h | h | h | h
            · exact hne h
            · exact h1 (Or.inl h)
            · exact h1 (Or.inr h)
            · exact h2 h
            · exact h3 h
            · exact h4 h.2

/-- `resolveName` picks the first present non-empty tag among name,
operator, brand, amenity, with the "Unknown" fallback. -/
theorem resolveName_eq_amended (t : Tags) : resolveName t = specResolveAmended t := by
  unfold resolveName specResolveAmended
  rcases t with ⟨nm, op, br, am, _, _, _, _, _⟩
  rcases nm with _ | n <;> rcases op with _ | o <;> rcases br with _ | b <;>
    rcases am with _ | a <;>
      simp [jsOrStr, List.filterMap_cons] <;>
        split_ifs <;>
          simp_all <;>
            (try (split <;> simp_all))

/-! ### Bridges between the duplicate predicates -/

/-- The spec's symmetric near-duplicate predicate implies the code's
`isDuplicate` check with the candidate as first argument. -/
theorem nearDupPair_isDuplicate {dist : Dist}
    (hsym : ∀ a b c d, dist a b c d = dist c d a b) {a b : Place}
    (h : nearDupPair dist a b) : isDuplicate dist 50 b a = true := by
  unfold nearDupPair at h
  unfold isDuplicate
  have hd : dist b.lat b.lon a.lat a.lon = dist a.lat a.lon b.lat b.lon :=
    hsym b.lat b.lon a.lat a.lon
  rcases h with ⟨hname, hlt⟩ | ⟨hsub, hlt⟩
  · rw [if_pos (by rw [hname]; exact beq_self_eq_true _)]
    simpa [hd] using hlt
  · by_cases heq : (lowerStr b.name == lowerStr a.name) = true
    · rw [if_pos heq]
      simpa [hd] using hlt
    · rw [if_neg heq]
      have hsub2 : (strIncludes (stripPunct (lowerStr b.name)) (stripPunct (lowerStr a.name)) ||
          strIncludes (stripPunct (lowerStr a.name)) (stripPunct (lowerStr b.name))) = true := by
        rw [Bool.or_eq_true]
        rcases hsub with h | h
        · exact Or.inl (by simpa [strIncludes] using h)
        · exact Or.inr (by simpa [strIncludes] using h)
      rw [if_pos hsub2]
      simpa [hd] using hlt

/-- The near-duplicate pair predicate is symmetric (for a symmetric distance
function). -/
theorem nearDupPair_symm {dist : Dist}
    (hsym : ∀ a b c d, dist a b c d = dist c d a b) {a b : Place}
    (h : nearDupPair dist a b) : nearDupPair dist b a := by
  have hd : dist b.lat b.lon a.lat a.lon = dist a.lat a.lon b.lat b.lon :=
    hsym b.lat b.lon a.lat a.lon
  unfold nearDupPair at h ⊢
  rcases h with ⟨hname, hlt⟩ | ⟨hsub, hlt⟩
  · exact Or.inl ⟨hname.symm, by rwa [hd]⟩
  · exact Or.inr ⟨hsub.symm, by rwa [hd]⟩

/-! ### The sort comparator -/

/-- Transitivity of the comparator order. -/
theorem sortLe_trans (a b c : ScoredPlace) :
    sortLe a b → sortLe b c → sortLe a c := by
  intro hab hbc
  rcases eq_or_ne a.qualityScore b.qualityScore with h1 | h1 <;>
    rcases eq_or_ne b.qualityScore c.qualityScore with h2 | h2 <;>
      rcases eq_or_ne a.qualityScore c.qualityScore with h3 | h3 <;>
        simp_all [sortLe] <;>
          omega

/-- Totality of the comparator order. -/
theorem sortLe_total (a b : ScoredPlace) : sortLe a b || sortLe b a := by
  rcases eq_or_ne a.qualityScore b.qualityScore with h | h
  · simp [sortLe, h]
    omega
  · simp only [sortLe, if_neg h, if_neg (Ne.symm h), Bool.or_eq_true, decide_eq_true_eq]
    omega

/-! ## Claim theorems -/

/-- Claim C1: for every request with a positive integer radius, every place
of the final output lies within `radius + 100` meters of the search center
(for the distance function the pipeline runs with; the haversine is one
instance); a record at exactly `radius + 100` passes the geometry filter
and one strictly beyond it is dropped. -/
theorem C1_radius_bound (dist : Dist) (cLat cLon : ℚ) (radius : ℤ)
    (hr : 0 < radius) (recs : List RawRecord) :
    (∀ sp ∈ handlePlaces dist cLat cLon radius recs,
      dist cLat cLon sp.lat sp.lon ≤ (radius : ℚ) + 100) ∧
    keepWithinRadius radius ((radius : ℚ) + 100) = true ∧
    (∀ d : ℚ, (radius : ℚ) + 100 < d → keepWithinRadius radius d = false) := by
  have hcast : ((radius + 100 : ℤ) : ℚ) = (radius : ℚ) + 100 := by push_cast; ring
  refine ⟨?_, ?_, ?_⟩
  · intro sp hsp
    obtain ⟨e, he, hpe, -⟩ := mem_handlePlaces hsp
    have hk := (processElement_some hpe).2.2.2.1
    unfold keepWithinRadius at hk
    rw [hcast] at hk
    exact not_lt.mp (by simpa using hk)
  · unfold keepWithinRadius
    rw [hcast]
    simp
  · intro d hd
    unfold keepWithinRadius
    rw [hcast]
    simp [hd]

/-- Witness for C1 at a concrete radius and distance. -/
theorem C1_radius_bound_witness : keepWithinRadius 2000 2101 = false :=
  (C1_radius_bound dist0 0 0 2000 (by norm_num) []).2.2 2101 (by norm_num)

/-- Claim C2: the final output never contains more than 12 healthcare, 10
transport, or 8 education places. -/
theorem C2_category_caps (dist : Dist) (cLat cLon : ℚ) (radius : ℤ)
    (recs : List RawRecord) :
    countCategory (handlePlaces dist cLat cLon radius recs) Category.healthcare ≤ 12 ∧
    countCategory (handlePlaces dist cLat cLon radius recs) Category.transport ≤ 10 ∧
    countCategory (handlePlaces dist cLat cLon radius recs) Category.education ≤ 8 := by
  refine ⟨?_, ?_, ?_⟩
  · have h := capAux_count Category.healthcare (sortedStage dist cLat cLon radius recs)
      (fun _ => 0) (Nat.zero_le _)
    simpa [handlePlaces, capLimit] using h
  · have h := capAux_count Category.transport (sortedStage dist cLat cLon radius recs)
      (fun _ => 0) (Nat.zero_le _)
    simpa [handlePlaces, capLimit] using h
  · have h := capAux_count Category.education (sortedStage dist cLat cLon radius recs)
      (fun _ => 0) (Nat.zero_le _)
    simpa [handlePlaces, capLimit] using h

/-- Claim C3: no two distinct places of the final output form a
near-duplicate pair: never identical case-folded names within 50 meters,
nor one punctuation-stripped case-folded name a substring of the other
within 50 meters (for any symmetric distance function, in particular the
haversine). -/
theorem C3_no_residual_duplicates (dist : Dist)
    (hsym : ∀ a b c d, dist a b c d = dist c d a b)
    (cLat cLon : ℚ) (radius : ℤ) (recs : List RawRecord) :
    (handlePlaces dist cLat cLon radius recs).Pairwise
      (fun a b => ¬ nearDupPair dist a.toPlace b.toPlace) := by
  have h1 : (uniqueStage dist cLat cLon radius recs).Pairwise
      (fun a b => isDuplicate dist 50 b a = false) := dedup_pairwise dist _
  have h2 : (uniqueStage dist cLat cLon radius recs).Pairwise
      (fun a b => ¬ nearDupPair dist a b) := by
    refine h1.imp ?_
    intro a b hab hdup
    have hdup2 := nearDupPair_isDuplicate hsym hdup
    rw [hab] at hdup2
    exact Bool.noConfusion hdup2
  have h3 : (scoredStage dist cLat cLon radius recs).Pairwise
      (fun a b => ¬ nearDupPair dist a.toPlace b.toPlace) := by
    unfold scoredStage
    rw [List.pairwise_map]
    exact h2
  have hperm := List.mergeSort_perm (scoredStage dist cLat cLon radius recs) sortLe
  have h4 : (sortedStage dist cLat cLon radius recs).Pairwise
      (fun a b => ¬ nearDupPair dist a.toPlace b.toPlace) := by
    unfold sortedStage
    refine (List.Perm.pairwise_iff ?_ hperm).mpr h3
    intro x y hxy hdup
    exact hxy (nearDupPair_symm hsym hdup)
  exact List.Pairwise.sublist (capAux_sublist _ _) h4

/-- Witness for C3 at a concrete symmetric distance function and input. -/
theorem C3_no_residual_duplicates_witness :
    (handlePlaces dist0 0 0 2000 [e1]).Pairwise
      (fun a b => ¬ nearDupPair dist0 a.toPlace b.toPlace) :=
  C3_no_residual_duplicates dist0 (fun _ _ _ _ => rfl) 0 0 2000 [e1]

/-- Claim C4: the final output is sorted by quality score descending with
ties by stored (rounded) distance ascending, and it is an in-order
subsequence of the sorted sequence — the capped forward pass does not
re-sort. -/
theorem C4_rank_order (dist : Dist) (cLat cLon : ℚ) (radius : ℤ)
    (recs : List RawRecord) :
    (handlePlaces dist cLat cLon radius recs).Pairwise
      (fun a b => b.qualityScore < a.qualityScore ∨
        (a.qualityScore = b.qualityScore ∧ a.distance ≤ b.distance)) ∧
    (handlePlaces dist cLat cLon radius recs).Sublist
      (sortedStage dist cLat cLon radius recs) := by
  constructor
  · have hs : (sortedStage dist cLat cLon radius recs).Pairwise
        (fun a b => sortLe a b = true) := by
      unfold sortedStage
      exact List.sorted_mergeSort (fun a b c => sortLe_trans a b c) sortLe_total _
    refine List.Pairwise.sublist (capAux_sublist _ _) (hs.imp ?_)
    intro a b hab
    by_cases h : a.qualityScore = b.qualityScore
    · rw [sortLe, if_pos h] at hab
      exact Or.inr ⟨h, by simpa using hab⟩
    · rw [sortLe, if_neg h] at hab
      exact Or.inl (by simpa using hab)
  · exact capAux_sublist _ _

/-- Claim C5 counterexample: a tag set whose `healthcare` key is present
with the empty-string value: the claim's rule list classifies it as
healthcare, the code leaves it unclassifiable. -/
theorem C5_classifier_cex :
    firstMatch claimRules { healthcare := some [] } = some Category.healthcare ∧
    categorizePlace { healthcare := some [] } = none := by
  exact ⟨rfl, rfl⟩

/-- Claim C5 amended: the classifier equals first-match evaluation of the
ordered rule list in which the `healthcare` and `public_transport`
presence tests require a non-empty value; unclassifiable records
contribute nothing to the output. -/
theorem C5_classifier_first_match :
    (∀ t, categorizePlace t = firstMatch codeRules t) ∧
    (∀ (dist : Dist) (cLat cLon : ℚ) (radius : ℤ) (e : RawRecord),
      categorizePlace e.tags = none → processElement dist cLat cLon radius e = none) := by
  constructor
  · intro t
    rfl
  · intro dist cLat cLon radius e h
    unfold processElement
    rw [h]

/-- Witness for C5: a record with an empty tag set is dropped. -/
theorem C5_classifier_first_match_witness :
    processElement dist0 0 0 2000 eU = none :=
  C5_classifier_first_match.2 dist0 0 0 2000 eU (by decide)

/-- Claim C6: the deduplicator is a first-seen-wins forward fold: the first
element always survives, the output is an in-order subsequence of the
input, every dropped record is a near duplicate of some surviving record,
and of a duplicate pair the earlier record survives — for all places, so
independently of their quality scores. -/
theorem C6_dedup_first_seen (dist : Dist) :
    (∀ x xs, ∃ t, dedup dist (x :: xs) = x :: t) ∧
    (∀ l, (dedup dist l).Sublist l) ∧
    (∀ l q, q ∈ l → q ∉ dedup dist l →
      ∃ p ∈ dedup dist l, isDuplicate dist 50 q p = true) ∧
    (∀ p q, isDuplicate dist 50 q p = true → dedup dist [p, q] = [p]) := by
  refine ⟨dedup_cons_head dist, dedup_sublist dist, ?_, ?_⟩
  · intro l q hq hnot
    exact dedupAux_dropped dist l [] q hq hnot
  · intro p q h
    simp [dedup, dedupAux, h]

/-- Witness for C6: of two same-named nearby places the first survives,
although the second has the higher quality score. -/
theorem C6_dedup_first_seen_witness : dedup dist0 [p6a, p6b] = [p6a] :=
  (C6_dedup_first_seen dist0).2.2.2 p6a p6b (by decide)

/-- Claim C7 counterexample: (a) a record whose name tag is present but
empty resolves, per the claim, to the empty display name (record dropped),
while the code falls through to the operator tag and keeps the record;
(b) the name " Site" is retained by the claim's rejection predicate but
dropped by the code, which compares the generic list against the trimmed
case-folded name. -/
theorem C7_name_cex :
    specResolveClaim e7.tags = [] ∧
    (processElement dist0 0 0 2000 e7).map Place.name = some ("Real Pharmacy".data) ∧
    cleanPlaceName (" Site".data) = false ∧
    ¬ specRejectClaim (" Site".data) := by
  exact ⟨by decide, by decide, by decide, by decide⟩

/-- Claim C7 amended: the display name is the first present non-empty tag
value among name, operator, brand, amenity, else "Unknown"; the name check
drops a record exactly when the resolved name is empty, shorter than 2,
longer than 100, contains a blacklist entry case-insensitively, has its
whitespace-trimmed case-folding equal to a generic name, or consists only
of digits and non-word symbols; every place of the first pass carries a
resolved, validated name. -/
theorem C7_name_validation :
    (∀ t, resolveName t = specResolveAmended t) ∧
    (∀ n, cleanPlaceName n = true ↔ ¬ specRejectAmended n) ∧
    (∀ (dist : Dist) (cLat cLon : ℚ) (radius : ℤ) (e : RawRecord) (p : Place),
      processElement dist cLat cLon radius e = some p →
        p.name = resolveName e.tags ∧ cleanPlaceName p.name = true) :=
  ⟨resolveName_eq_amended, cleanPlaceName_iff,
    fun _ _ _ _ _ _ h => ⟨(processElement_some h).2.1, (processElement_some h).2.2.1⟩⟩

/-- Witness for C7 at a concrete record. -/
theorem C7_name_validation_witness :
    pl1.name = resolveName e1.tags ∧ cleanPlaceName pl1.name = true :=
  C7_name_validation.2.2 dist0 0 0 2000 e1 pl1 (by decide)

/-- Claim C8 evaluation (code bug): a record carrying the direct coordinate
latitude 0 is dropped by the falsy coordinate guard, while the same record
with a nonzero latitude is kept. -/
theorem C8_zero_coordinate_dropped :
    processElement dist0 0 0 2000 eEquator = none ∧
    (processElement dist0 0 0 2000 eNonzero).isSome = true := by
  exact ⟨by decide, by decide⟩

/-- Claim C9 evaluation (code bug): the final output consists of the scored
objects, which still carry the quality score; at a concrete input the
single output place carries quality score 60. -/
theorem C9_quality_score_in_output :
    handlePlaces dist0 0 0 2000 [e1] = [mkScored pl1] ∧
    (mkScored pl1).qualityScore = 60 := by
  constructor
  · unfold handlePlaces sortedStage
    rw [show scoredStage dist0 0 0 2000 [e1] = [mkScored pl1] from by decide]
    rw [List.mergeSort_singleton]
    decide
  · decide

/-- Claim C10: the emergency detail of an output place is true exactly when
the record's emergency tag is the string value "yes". -/
theorem C10_emergency_flag (dist : Dist) (cLat cLon : ℚ) (radius : ℤ)
    (e : RawRecord) (p : Place)
    (h : processElement dist cLat cLon radius e = some p) :
    p.details.emergency = true ↔ e.tags.emergency = some ("yes".data) := by
  have he := (processElement_some h).2.2.2.2.1
  rw [he]
  exact beq_iff_eq

/-- Witness for C10 at a concrete record with the tag set to "yes". -/
theorem C10_emergency_flag_witness :
    pl1.details.emergency = true ↔ e1.tags.emergency = some ("yes".data) :=
  C10_emergency_flag dist0 0 0 2000 e1 pl1 (by decide)

end Finder
